import Mathlib

/-!
Shallow embedding of the go-tele trading pipeline (repository jackynguyen93/go-tele)
and proofs about it.

Conventions used throughout this development:

* Go strings are modelled as lists of characters (abbreviation Strg below).
* Go float64 values are modelled as exact rationals.  All price and quantity
  arithmetic in the source is plain field arithmetic plus a floor operation
  (math.Floor) and an int64 cast (truncation), both of which are modelled
  exactly on rationals.
* Numeric values that the exchange transports as strings and the code parses
  with strconv.ParseFloat are modelled by the type StrNum: none models the
  empty string, some none models a non-empty string that fails to parse, and
  some (some q) models a string parsing to q.
* External calls (REST requests to the exchange) are modelled by an
  environment record of response functions; each operation additionally
  returns the list of requests it issued, in the sequential order of the
  source (the three parallel order placements of ExecuteSignal are listed in
  the textual order of the source; their real acknowledgement order is
  unspecified and irrelevant to the properties proved here).
* Each Go function touching the store is modelled as one atomic transition on
  a list of rows.
* Wall-clock instants are rationals measured in seconds.
-/

/-- Go strings, modelled as their list of characters. -/
abbrev Strg := List Char

/-- The character list of a Lean string literal. -/
def str (s : String) : Strg := s.data

/-- Model of strings.TrimPrefix: drop the leading occurrence of pre, if present. -/
def trimPrefixStr (s pre : Strg) : Strg :=
  if pre.isPrefixOf s then s.drop pre.length else s

/-- Model of strings.TrimSuffix: drop the trailing occurrence of suf, if present. -/
def trimSuffixStr (s suf : Strg) : Strg :=
  if suf.isSuffixOf s then s.take (s.length - suf.length) else s

/-- Model of strings.HasSuffix. -/
def hasSuffixStr (s suf : Strg) : Bool := suf.isSuffixOf s

/-- Model of strings.TrimSpace (whitespace at both ends removed). -/
def trimSpaceStr (s : Strg) : Strg :=
  ((s.dropWhile Char.isWhitespace).reverse.dropWhile Char.isWhitespace).reverse

/-- Model of strings.ToUpper (the symbols handled here are ASCII). -/
def toUpperStr (s : Strg) : Strg := s.map Char.toUpper

/-- SignalParser.normalizeSymbol from internal/trading/executor.go: strip a
leading dollar or hash, strip a trailing slash-, dash- or underscore-USDT,
then append USDT when the suffix is not already present. -/
def normalizeSymbol (symbol : Strg) : Strg :=
  let s := trimPrefixStr symbol (str "$")
  let s := trimPrefixStr s (str "#")
  let s := trimSuffixStr s (str "/USDT")
  let s := trimSuffixStr s (str "-USDT")
  let s := trimSuffixStr s (str "_USDT")
  if hasSuffixStr s (str "USDT") then s else s ++ str "USDT"

/-- Model of the Go regular expression check regexp.MatchString applied to the
anchored class pattern (one or more characters, each an upper-case letter or a
digit). -/
def matchesUpperAlnum (s : Strg) : Bool :=
  !s.isEmpty && s.all (fun c => c.isUpper || c.isDigit)

/-- SignalParser.IsValidSymbol from internal/trading/executor.go: length in
[4, 20], suffix USDT, and only upper-case letters and digits. -/
def isValidSymbol (symbol : Strg) : Bool :=
  if symbol.length < 4 || symbol.length > 20 then false
  else if !(hasSuffixStr symbol (str "USDT")) then false
  else matchesUpperAlnum symbol

/-- The symbol computed by SignalParser.Parse from the first captured group of
the signal pattern: trim space, upper-case, then normalize.  The regular
expression engine itself is not modelled; this function starts from the
captured group. -/
def extractSymbol (captured : Strg) : Strg :=
  normalizeSymbol (toUpperStr (trimSpaceStr captured))

/-- Engine.ProcessMessage from internal/trading/engine.go, restricted to its
signal path: when trading is enabled and the pattern captured a group, the
captured text is normalized and validated and the resulting symbol is handed
to OrderExecutor.ExecuteSignal.  The function returns the symbol dispatched to
the executor, or none when the message is dropped.  Neither Parse nor
ProcessMessage consults any ignore list or settings row: the model therefore
has no blacklist parameter. -/
def processMessageSymbol (tradingEnabled : Bool) (captured : Option Strg) : Option Strg :=
  if !tradingEnabled then none
  else
    match captured with
    | none => none
    | some raw =>
      let symbol := extractSymbol raw
      if isValidSymbol symbol then some symbol else none

/-! ## Account store (storage.Repository, package storage) -/

/-- A row of the binance_accounts table (models.BinanceAccount).  The trading
parameters (leverage, order amount, target and stop-loss percent, order
timeout in seconds) are the per-account configuration read by the executor.
The created_at and updated_at timestamps are never read by any modelled
operation and are omitted. -/
structure BinanceAccount where
  id : ℤ
  name : Strg
  apiKey : Strg
  apiSecret : Strg
  isTestnet : Bool
  isActive : Bool
  isDefault : Bool
  leverage : ℤ
  orderAmount : ℚ
  targetPercent : ℚ
  stopLossPercent : ℚ
  orderTimeout : ℤ
deriving DecidableEq

/-- The SQL statement UPDATE binance_accounts SET is_default = 0 WHERE id != ?,
run by SaveAccount and UpdateAccount after a write with is_default set. -/
def clearOtherDefaults (db : List BinanceAccount) (id : ℤ) : List BinanceAccount :=
  db.map (fun b => if b.id ≠ id then { b with isDefault := false } else b)

/-- Repository.SaveAccount: insert the row (the store assigns the fresh id
newId), then, when the inserted row has is_default set, clear is_default on
every other row. -/
def saveAccount (db : List BinanceAccount) (account : BinanceAccount) (newId : ℤ) :
    List BinanceAccount :=
  let inserted := { account with id := newId }
  let db1 := db ++ [inserted]
  if inserted.isDefault then clearOtherDefaults db1 newId else db1

/-- Repository.UpdateAccount: overwrite the stored columns of every row whose
id matches, then, when the written row has is_default set, clear is_default on
every other row. -/
def updateAccount (db : List BinanceAccount) (account : BinanceAccount) :
    List BinanceAccount :=
  let db1 := db.map (fun b =>
    if b.id = account.id then
      { b with
        name := account.name
        apiKey := account.apiKey
        apiSecret := account.apiSecret
        isTestnet := account.isTestnet
        isActive := account.isActive
        isDefault := account.isDefault }
    else b)
  if account.isDefault then clearOtherDefaults db1 account.id else db1

/-- Repository.GetAccount: the row with the given id, none when absent. -/
def getAccount (db : List BinanceAccount) (id : ℤ) : Option BinanceAccount :=
  db.find? (fun b => b.id == id)

/-- Repository.GetAllAccounts.  The ORDER BY clause of the query only reorders
rows and is not modelled. -/
def getAllAccounts (db : List BinanceAccount) : List BinanceAccount := db

/-- Repository.GetDefaultAccount: the first row with is_default and is_active
both set (WHERE is_default = 1 AND is_active = 1 LIMIT 1). -/
def getDefaultAccount (db : List BinanceAccount) : Option BinanceAccount :=
  db.find? (fun b => b.isDefault && b.isActive)

/-- The secret-masking step of the account read handlers in package webapi:
when the secret is longer than four characters, keep its first four and last
four characters around a three-dot ellipsis; otherwise leave it unchanged. -/
def maskSecret (secret : Strg) : Strg :=
  if 4 < secret.length then
    secret.take 4 ++ str "..." ++ secret.drop (secret.length - 4)
  else secret

/-- Server.handleGetAccounts: all rows with the api_secret field masked. -/
def handleGetAccounts (db : List BinanceAccount) : List BinanceAccount :=
  (getAllAccounts db).map (fun acc => { acc with apiSecret := maskSecret acc.apiSecret })

/-- Server.handleGetAccount: the requested row with the api_secret masked,
none when the row is absent (HTTP 404). -/
def handleGetAccount (db : List BinanceAccount) (id : ℤ) : Option BinanceAccount :=
  (getAccount db id).map (fun acc => { acc with apiSecret := maskSecret acc.apiSecret })

/-- Server.handleSetDefaultAccount: read the row (404 when absent, modelled as
none), set its is_default flag and write it back through UpdateAccount. -/
def handleSetDefaultAccount (db : List BinanceAccount) (id : ℤ) :
    Option (List BinanceAccount) :=
  match getAccount db id with
  | none => none
  | some account => some (updateAccount db { account with isDefault := true })

/-- A row is counted by invariant I1 when it is both active and default. -/
def activeDefault (b : BinanceAccount) : Bool := b.isActive && b.isDefault

/-- Invariant I1 of the specification: at most one row is active and default. -/
def defaultInv (db : List BinanceAccount) : Prop :=
  db.countP activeDefault ≤ 1

/-! ## Order executor (OrderExecutor, internal/trading/executor.go) -/

/-- A numeric field transported as a string in an exchange payload and parsed
with strconv.ParseFloat: none models the empty string, some none a non-empty
string that fails to parse, some (some q) a string parsing to q. -/
abbrev StrNum := Option (Option ℚ)

/-- The value strconv.ParseFloat leaves behind when its error is discarded:
the parsed number on success, zero otherwise. -/
def parseOrZero : StrNum → ℚ
  | some (some q) => q
  | _ => 0

/-- Truncation of a rational toward zero, the effect of the Go cast
float64 to int64 used by roundToPrecision. -/
def truncRat (q : ℚ) : ℤ := Int.tdiv q.num (q.den : ℤ)

/-- OrderExecutor.roundToPrecision: scale by a power of ten, truncate toward
zero, scale back.  A negative precision leaves the multiplier at one, exactly
as the Go counting loop does. -/
def roundToPrecision (value : ℚ) (precision : ℤ) : ℚ :=
  let multiplier : ℚ := 10 ^ precision.toNat
  (truncRat (value * multiplier) : ℚ) / multiplier

/-- OrderExecutor.roundToStepSize: when the step parses and is non-zero, round
to the nearest multiple of the step (half away from zero upward, via
math.Floor of value / step + one half), then clamp below at minQty when that
bound is positive and above at maxQty when that bound is positive.  When the
step fails to parse or is zero the value is returned unchanged. -/
def roundToStepSize (value : ℚ) (stepSize minQty maxQty : StrNum) : ℚ :=
  match stepSize with
  | some (some step) =>
    if step = 0 then value
    else
      let mn := parseOrZero minQty
      let mx := parseOrZero maxQty
      let rounded : ℚ := (⌊value / step + 1/2⌋ : ℤ) * step
      let rounded := if 0 < mn ∧ rounded < mn then mn else rounded
      if 0 < mx ∧ mx < rounded then mx else rounded
  | _ => value

/-- One entry of a SymbolInfo filters array (binance.FilterInfo; the struct
declaration itself is not among the repository files provided, its fields are
reconstructed from every access ExecuteSignal makes: all of them are string
fields parsed on use). -/
structure FilterInfo where
  filterType : Strg
  stepSize : StrNum := none
  minQty : StrNum := none
  maxQty : StrNum := none
  tickSize : StrNum := none
  minPrice : StrNum := none
  maxPrice : StrNum := none
  minNotional : StrNum := none
deriving DecidableEq

/-- binance.SymbolInfo, restricted to the fields ExecuteSignal reads. -/
structure SymbolInfo where
  symbol : Strg
  pricePrecision : ℤ
  quantityPrecision : ℤ
  filters : List FilterInfo
deriving DecidableEq

/-- binance.PriceTicker, restricted to the price field the executor parses. -/
structure PriceTicker where
  price : StrNum
deriving DecidableEq

/-- binance.NewOrder, restricted to the fields ExecuteSignal sets.  The Go
field Type is named orderType here because type is reserved in Lean. -/
structure NewOrder where
  symbol : Strg
  side : Strg
  orderType : Strg
  quantity : ℚ
  stopPrice : ℚ := 0
  reduceOnly : Bool := false
deriving DecidableEq

/-- binance.OrderResponse, restricted to the fields the executor reads. -/
structure OrderResponse where
  orderID : ℤ
  status : Strg
deriving DecidableEq

/-- One REST request issued by ExecuteSignal, recorded for the theorems. -/
inductive Request where
  | getPrice (symbol : Strg)
  | getExchangeInfo
  | setLeverage (symbol : Strg) (leverage : ℤ)
  | setMarginType (symbol : Strg) (marginType : Strg)
  | place (order : NewOrder)
  | cancel (symbol : Strg) (orderID : ℤ)
deriving DecidableEq

/-- The exchange, as an oracle of responses: none models a request that comes
back with an error.  setLeverage and setMarginType answer true on success
(the no-change-needed normalization of the margin-type call happens inside the
gateway and is part of this answer). -/
structure ExchangeEnv where
  priceTicker : Strg → Option PriceTicker
  exchangeInfo : Option (List SymbolInfo)
  setLeverage : Strg → ℤ → Bool
  setMarginType : Strg → Strg → Bool
  placeOrder : NewOrder → Option OrderResponse

/-- OrderTimeout from internal/trading/executor.go: one pending protective
order tracked for timeout.  Instants and durations are in seconds. -/
structure OrderTimeout where
  orderID : ℤ
  symbol : Strg
  orderType : Strg
  quantity : ℚ
  createdAt : ℚ
  timeoutDuration : ℚ
deriving DecidableEq

/-- The executor's in-memory state: the recent-signal dedup map (symbol to
execution instant; first binding wins on lookup, updates are prepended) and
the pending-order timeout map keyed by exchange order id. -/
structure ExecState where
  recentSignals : List (Strg × ℚ)
  pendingOrders : List (ℤ × OrderTimeout)
deriving DecidableEq

/-- Lookup in the recent-signal map. -/
def lookupSignal (m : List (Strg × ℚ)) (symbol : Strg) : Option ℚ :=
  (m.find? (fun p => p.1 == symbol)).map (·.2)

/-- The 48-hour dedup window of ExecuteSignal, in seconds. -/
def dedupWindowSeconds : ℚ := 48 * 3600

/-- Everything ExecuteSignal produces: the returned value (ok models the nil
error), the requests issued to the exchange in source order, and the final
in-memory state. -/
structure ExecOutcome where
  result : Except Strg Unit
  requests : List Request
  finalState : ExecState

/-- Selection of the lot, price and min-notional filters by the switch in
ExecuteSignal: MARKET_LOT_SIZE always becomes the lot filter, LOT_SIZE only
when no lot filter was seen yet, and the price and min-notional slots take the
latest match. -/
structure SelectedFilters where
  lotFilter : Option FilterInfo := none
  priceFilter : Option FilterInfo := none
  minNotionalFilter : Option FilterInfo := none

def selectFilters (filters : List FilterInfo) : SelectedFilters :=
  filters.foldl (fun acc f =>
    if f.filterType = str "MARKET_LOT_SIZE" then { acc with lotFilter := some f }
    else if f.filterType = str "LOT_SIZE" then
      match acc.lotFilter with
      | none => { acc with lotFilter := some f }
      | some _ => acc
    else if f.filterType = str "PRICE_FILTER" then { acc with priceFilter := some f }
    else if f.filterType = str "MIN_NOTIONAL" then { acc with minNotionalFilter := some f }
    else acc) {}

/-- The quantity-sizing steps of ExecuteSignal after the raw quantity is
computed: round to the lot step when a lot filter with a non-empty step is
present, otherwise fall back to decimal-precision truncation; then, when a
min-notional filter with a parsable bound is present and the rounded
quantity's notional at the entry price falls below the bound, bump the
quantity to bound / entry and re-apply the lot-step rounding. -/
def quantityAfterFilters (rawQty entry : ℚ) (info : SymbolInfo) : ℚ :=
  let sel := selectFilters info.filters
  let q :=
    match sel.lotFilter with
    | some lf =>
      if lf.stepSize.isSome then roundToStepSize rawQty lf.stepSize lf.minQty lf.maxQty
      else roundToPrecision rawQty info.quantityPrecision
    | none => roundToPrecision rawQty info.quantityPrecision
  match sel.minNotionalFilter with
  | some nf =>
    match nf.minNotional with
    | some (some minN) =>
      if q * entry < minN then
        let q2 := minN / entry
        match sel.lotFilter with
        | some lf =>
          if lf.stepSize.isSome then roundToStepSize q2 lf.stepSize lf.minQty lf.maxQty
          else q2
        | none => q2
      else q
    | _ => q
  | none => q

/-- The price-rounding step of ExecuteSignal, applied to the take-profit and
stop-loss prices: tick-size rounding when a price filter with a non-empty tick
is present, decimal-precision truncation otherwise. -/
def priceAfterFilters (p : ℚ) (info : SymbolInfo) : ℚ :=
  let sel := selectFilters info.filters
  match sel.priceFilter with
  | some pf =>
    if pf.tickSize.isSome then roundToStepSize p pf.tickSize pf.minPrice pf.maxPrice
    else roundToPrecision p info.pricePrecision
  | none => roundToPrecision p info.pricePrecision

/-- The entry order of the bracket: a market buy. -/
def mkEntryOrder (symbol : Strg) (quantity : ℚ) : NewOrder :=
  { symbol := symbol, side := str "BUY", orderType := str "MARKET", quantity := quantity }

/-- The take-profit order of the bracket: a reduce-only take-profit-market
sell at the given stop price. -/
def mkTPOrder (symbol : Strg) (quantity stopPrice : ℚ) : NewOrder :=
  { symbol := symbol, side := str "SELL", orderType := str "TAKE_PROFIT_MARKET"
    quantity := quantity, stopPrice := stopPrice, reduceOnly := true }

/-- The stop-loss order of the bracket: a reduce-only stop-market sell at the
given stop price. -/
def mkSLOrder (symbol : Strg) (quantity stopPrice : ℚ) : NewOrder :=
  { symbol := symbol, side := str "SELL", orderType := str "STOP_MARKET"
    quantity := quantity, stopPrice := stopPrice, reduceOnly := true }

/-- The linear search of ExecuteSignal over exchangeInfo.Symbols. -/
def findSymbolInfo (symbols : List SymbolInfo) (symbol : Strg) : Option SymbolInfo :=
  symbols.find? (fun s => s.symbol == symbol)

/-- Error tags for the failure returns of ExecuteSignal, in source order. -/
def errPriceRequest : Strg := str "failed to get price"
def errPriceParse : Strg := str "failed to parse price"
def errLeverage : Strg := str "invalid leverage"
def errOrderAmount : Strg := str "invalid order amount"
def errTargetPercent : Strg := str "invalid target percent"
def errStopLossPercent : Strg := str "invalid stop loss percent"
def errExchangeInfo : Strg := str "failed to get exchange info"
def errSymbolNotFound : Strg := str "symbol not found in exchange info"
def errSetLeverage : Strg := str "failed to set leverage"
def errSetMarginType : Strg := str "failed to set margin type"
def errExecutionFailed : Strg := str "order execution failed"

/-- The phase of ExecuteSignal that runs before any order is placed: price
fetch and parse, account-parameter validation, the take-profit, stop-loss and
quantity formulas, exchange-info fetch and symbol lookup, filter rounding, and
the leverage and margin-type conditioning calls.  Returns either an error or
the final (quantity, takeProfitPrice, stopLossPrice), together with the
requests issued. -/
def prepareSignal (env : ExchangeEnv) (symbol : Strg) (account : BinanceAccount) :
    Except Strg (ℚ × ℚ × ℚ) × List Request :=
  let reqs := [Request.getPrice symbol]
  match env.priceTicker symbol with
  | none => (.error errPriceRequest, reqs)
  | some ticker =>
    match ticker.price with
    | some (some entryPrice) =>
      if account.leverage ≤ 0 ∨ 125 < account.leverage then (.error errLeverage, reqs)
      else if account.orderAmount ≤ 0 then (.error errOrderAmount, reqs)
      else if account.targetPercent ≤ 0 then (.error errTargetPercent, reqs)
      else if account.stopLossPercent ≤ 0 then (.error errStopLossPercent, reqs)
      else
        let takeProfitPrice := entryPrice * (1 + account.targetPercent / (account.leverage : ℚ))
        let stopLossPrice := entryPrice * (1 - account.stopLossPercent / (account.leverage : ℚ))
        let quantity := account.orderAmount / entryPrice
        let reqs := reqs ++ [Request.getExchangeInfo]
        match env.exchangeInfo with
        | none => (.error errExchangeInfo, reqs)
        | some symbols =>
          match findSymbolInfo symbols symbol with
          | none => (.error errSymbolNotFound, reqs)
          | some info =>
            let quantity := quantityAfterFilters quantity entryPrice info
            let takeProfitPrice := priceAfterFilters takeProfitPrice info
            let stopLossPrice := priceAfterFilters stopLossPrice info
            let reqs := reqs ++ [Request.setLeverage symbol account.leverage]
            if env.setLeverage symbol account.leverage then
              let reqs := reqs ++ [Request.setMarginType symbol (str "CROSSED")]
              if env.setMarginType symbol (str "CROSSED") then
                (.ok (quantity, takeProfitPrice, stopLossPrice), reqs)
              else (.error errSetMarginType, reqs)
            else (.error errSetLeverage, reqs)
    | _ => (.error errPriceParse, reqs)

/-- The dispatch phase of ExecuteSignal: place the three bracket orders, and
on entry rejection cancel whatever protective orders were accepted and return
the error; on entry acceptance keep the position even when a protective order
failed, register the accepted protective orders for timeout with the
account's order timeout, and record the symbol in the dedup map. -/
def dispatchOrders (env : ExchangeEnv) (st : ExecState) (symbol : Strg)
    (account : BinanceAccount) (now : ℚ) (quantity takeProfitPrice stopLossPrice : ℚ)
    (reqs : List Request) : ExecOutcome :=
  let entryOrder := mkEntryOrder symbol quantity
  let tpOrder := mkTPOrder symbol quantity takeProfitPrice
  let slOrder := mkSLOrder symbol quantity stopLossPrice
  let entryResp := env.placeOrder entryOrder
  let tpResp := env.placeOrder tpOrder
  let slResp := env.placeOrder slOrder
  let reqs := reqs ++ [Request.place entryOrder, Request.place tpOrder, Request.place slOrder]
  match entryResp with
  | none =>
    let cancels :=
      (match tpResp with
       | some r => [Request.cancel symbol r.orderID]
       | none => []) ++
      (match slResp with
       | some r => [Request.cancel symbol r.orderID]
       | none => [])
    ⟨.error errExecutionFailed, reqs ++ cancels, st⟩
  | some _ =>
    let pending := st.pendingOrders
    let pending :=
      match tpResp with
      | some r => pending ++
          [(r.orderID, ⟨r.orderID, symbol, str "take_profit", quantity, now,
            (account.orderTimeout : ℚ)⟩)]
      | none => pending
    let pending :=
      match slResp with
      | some r => pending ++
          [(r.orderID, ⟨r.orderID, symbol, str "stop_loss", quantity, now,
            (account.orderTimeout : ℚ)⟩)]
      | none => pending
    ⟨.ok (), reqs,
     { recentSignals := (symbol, now) :: st.recentSignals, pendingOrders := pending }⟩

/-- ExecuteSignal after the dedup gate: prepare, then dispatch. -/
def executeSignalAfterDedup (env : ExchangeEnv) (st : ExecState) (symbol : Strg)
    (account : BinanceAccount) (now : ℚ) : ExecOutcome :=
  match prepareSignal env symbol account with
  | (.error msg, reqs) => ⟨.error msg, reqs, st⟩
  | (.ok (quantity, takeProfitPrice, stopLossPrice), reqs) =>
    dispatchOrders env st symbol account now quantity takeProfitPrice stopLossPrice reqs

/-- OrderExecutor.ExecuteSignal from internal/trading/executor.go.  The dedup
gate comes first: a symbol executed less than 48 hours ago is skipped with a
nil (successful) return, no request issued and the state unchanged. -/
def executeSignal (env : ExchangeEnv) (st : ExecState) (symbol : Strg)
    (account : BinanceAccount) (now : ℚ) : ExecOutcome :=
  match lookupSignal st.recentSignals symbol with
  | some lastExecuted =>
    if now - lastExecuted < dedupWindowSeconds then ⟨.ok (), [], st⟩
    else executeSignalAfterDedup env st symbol account now
  | none => executeSignalAfterDedup env st symbol account now

/-! ## Timeout sweeper (OrderExecutor.monitorOrderTimeouts) -/

/-- The exchange as seen by one sweep of monitorOrderTimeouts: the outcome of
a cancel request by order id, and the outcome of a reduce-only market-sell
close request by symbol and quantity. -/
structure SweepEnv where
  cancelOk : ℤ → Bool
  closeOk : Strg → ℚ → Bool

/-- One exchange call issued by the sweeper, with the outcome the exchange
reported.  close records the reduce-only MARKET SELL submitted to flatten the
position of a timed-out protective order. -/
inductive SweepEvent where
  | cancel (symbol : Strg) (orderID : ℤ) (ok : Bool)
  | close (symbol : Strg) (quantity : ℚ) (ok : Bool)
deriving DecidableEq

/-- The state owned by monitorOrderTimeouts across its ticks: the shared
pending-order map (here the list of entries in the iteration order of one
sweep) and the function-local closedPositions set, which lives for the whole
process lifetime of the monitor. -/
structure SweepState where
  pendingOrders : List (ℤ × OrderTimeout)
  closedPositions : List Strg
deriving DecidableEq

/-- The body of one sweep, processing the pending entries in iteration order
(the Go map iteration order is arbitrary; the theorems below quantify over
every entry list, hence over every order).  A timed-out entry is cancelled,
then, when its symbol has not been marked closed, a reduce-only market sell
for the recorded quantity is submitted and the symbol is marked closed on
success only; finally the entry is removed.  Entries not yet timed out are
kept.  Returns the kept entries, the closed set and the events, in order. -/
def sweepList (env : SweepEnv) (now : ℚ) :
    List (ℤ × OrderTimeout) → List Strg →
    List (ℤ × OrderTimeout) × List Strg × List SweepEvent
  | [], closed => ([], closed, [])
  | e :: rest, closed =>
    let t := e.2
    if t.timeoutDuration < now - t.createdAt then
      let evCancel := SweepEvent.cancel t.symbol e.1 (env.cancelOk e.1)
      if t.symbol ∈ closed then
        let r := sweepList env now rest closed
        (r.1, r.2.1, evCancel :: r.2.2)
      else
        let ok := env.closeOk t.symbol t.quantity
        let closed1 := if ok then closed ++ [t.symbol] else closed
        let r := sweepList env now rest closed1
        (r.1, r.2.1, evCancel :: SweepEvent.close t.symbol t.quantity ok :: r.2.2)
    else
      let r := sweepList env now rest closed
      (e :: r.1, r.2.1, r.2.2)

/-- One tick of monitorOrderTimeouts. -/
def sweepOnce (env : SweepEnv) (now : ℚ) (st : SweepState) : SweepState × List SweepEvent :=
  let r := sweepList env now st.pendingOrders st.closedPositions
  (⟨r.1, r.2.1⟩, r.2.2)

/-- A run of the monitor over a list of ticks (each with its own exchange
behaviour and instant), accumulating every event of the process lifetime. -/
def runSweeps (ticks : List (SweepEnv × ℚ)) (st : SweepState) :
    SweepState × List SweepEvent :=
  match ticks with
  | [] => (st, [])
  | tick :: rest =>
    let r := sweepOnce tick.1 tick.2 st
    let r2 := runSweeps rest r.1
    (r2.1, r.2 ++ r2.2)

/-- Counter of force-close submissions for a symbol among sweep events;
when succeededOnly is set, only submissions the exchange accepted count. -/
def countCloses (symbol : Strg) (succeededOnly : Bool) (evs : List SweepEvent) : ℕ :=
  evs.countP (fun e =>
    match e with
    | SweepEvent.close s _ ok => s == symbol && (!succeededOnly || ok)
    | _ => false)

/-! ## Theorems about the signal extractor (claims C7 and C8) -/

theorem matchesUpperAlnum_chars (y : Strg) (h : matchesUpperAlnum y = true) :
    ∀ c ∈ y, (c.isUpper || c.isDigit) = true := by
  unfold matchesUpperAlnum at h
  simp only [Bool.and_eq_true] at h
  exact List.all_eq_true.mp h.2

theorem isSuffixOf_eq_false_of_alnum (y suf : Strg) (c : Char) (hc : c ∈ suf)
    (hcbad : (c.isUpper || c.isDigit) = false)
    (hall : ∀ a ∈ y, (a.isUpper || a.isDigit) = true) :
    suf.isSuffixOf y = false := by
  cases hs : suf.isSuffixOf y with
  | false => rfl
  | true =>
    obtain ⟨t, ht⟩ := List.isSuffixOf_iff_suffix.mp hs
    have hcy : c ∈ y := ht ▸ List.mem_append.mpr (Or.inr hc)
    rw [hall c hcy] at hcbad
    exact absurd hcbad (by simp)

theorem isPrefixOf_eq_false_of_alnum (y pre : Strg) (c : Char) (hc : c ∈ pre)
    (hcbad : (c.isUpper || c.isDigit) = false)
    (hall : ∀ a ∈ y, (a.isUpper || a.isDigit) = true) :
    pre.isPrefixOf y = false := by
  cases hs : pre.isPrefixOf y with
  | false => rfl
  | true =>
    obtain ⟨t, ht⟩ := List.isPrefixOf_iff_prefix.mp hs
    have hcy : c ∈ y := ht ▸ List.mem_append.mpr (Or.inl hc)
    rw [hall c hcy] at hcbad
    exact absurd hcbad (by simp)

/-- A symbol that passes IsValidSymbol is a fixed point of normalizeSymbol:
its characters are upper-case letters and digits, so no dollar or hash is
stripped and no slash-, dash- or underscore-USDT suffix can occur, and the
USDT suffix is already present. -/
theorem normalizeSymbol_fixed_of_valid (y : Strg) (h : isValidSymbol y = true) :
    normalizeSymbol y = y := by
  unfold isValidSymbol at h
  split at h
  · exact absurd h (by simp)
  · split at h
    · exact absurd h (by simp)
    · next hsuf =>
      have hall := matchesUpperAlnum_chars y h
      have hUSDT : hasSuffixStr y (str "USDT") = true := by
        cases hv : hasSuffixStr y (str "USDT")
        · rw [hv] at hsuf; exact absurd hsuf (by simp)
        · rfl
      have h1 := isPrefixOf_eq_false_of_alnum y (str "$") '$' (by decide) (by decide) hall
      have h2 := isPrefixOf_eq_false_of_alnum y (str "#") '#' (by decide) (by decide) hall
      have h3 := isSuffixOf_eq_false_of_alnum y (str "/USDT") '/' (by decide) (by decide) hall
      have h4 := isSuffixOf_eq_false_of_alnum y (str "-USDT") '-' (by decide) (by decide) hall
      have h5 := isSuffixOf_eq_false_of_alnum y (str "_USDT") '_' (by decide) (by decide) hall
      unfold normalizeSymbol trimPrefixStr trimSuffixStr
      simp only [h1, h2, h3, h4, h5, hUSDT, Bool.false_eq_true, if_false, if_true]

/-- Claim C8 (amended): normalizeSymbol is idempotent on every symbol that
passes IsValidSymbol (in particular on every symbol the engine dispatches,
since ProcessMessage validates before executing), and the extraction pipeline
(trim space, upper-case, normalize) maps the dollar-BTC, BTC-slash-USDT and
lower-case-btc inputs to BTCUSDT.  On arbitrary strings idempotence fails,
see the counterexample. -/
theorem normalizeSymbol_idempotent_on_valid :
    (∀ x : Strg, isValidSymbol (normalizeSymbol x) = true →
      normalizeSymbol (normalizeSymbol x) = normalizeSymbol x)
    ∧ extractSymbol (str "$BTC") = str "BTCUSDT"
    ∧ extractSymbol (str "BTC/USDT") = str "BTCUSDT"
    ∧ extractSymbol (str "btc") = str "BTCUSDT" :=
  ⟨fun _ h => normalizeSymbol_fixed_of_valid _ h, by decide, by decide, by decide⟩

/-- Witness for the amended claim C8 at the concrete input dollar-BTC. -/
theorem normalizeSymbol_idempotent_on_valid_witness :
    isValidSymbol (normalizeSymbol (str "$BTC")) = true ∧
    normalizeSymbol (normalizeSymbol (str "$BTC")) = normalizeSymbol (str "$BTC") :=
  ⟨by decide, normalizeSymbol_idempotent_on_valid.1 (str "$BTC") (by decide)⟩

/-- Counterexample to claim C8 as stated: on the input double-dollar-BTC the
first normalization strips only one dollar sign and appends USDT, and the
second normalization then strips the remaining dollar sign, so
normalize composed with itself differs from normalize. -/
theorem normalizeSymbol_not_idempotent :
    normalizeSymbol (normalizeSymbol (str "$$BTC")) ≠ normalizeSymbol (str "$$BTC") := by
  decide

/-- Claim C7: the signal path of the code never reads an ignore list.  With
trading enabled, a message whose pattern capture is dollar-BTC is normalized
to BTCUSDT, passes validation and is handed to the executor, even though the
repository's settings surface declares an ignore_tokens entry (here
containing BTC) that promises such symbols will not trigger orders:
processMessageSymbol has no blacklist input at all, because neither
SignalParser.Parse nor Engine.ProcessMessage consults one. -/
theorem blacklisted_symbol_still_dispatched :
    processMessageSymbol true (some (str "$BTC")) = some (str "BTCUSDT") := by
  decide

/-! ## Theorems about the account store (claims C3, C9, C10) -/

theorem countP_activeDefault_clear (db : List BinanceAccount) (id : ℤ) :
    (clearOtherDefaults db id).countP activeDefault ≤
      db.countP (fun b => b.id == id) := by
  induction db with
  | nil => simp [clearOtherDefaults]
  | cons b l ih =>
    unfold clearOtherDefaults at ih ⊢
    rw [List.map_cons, List.countP_cons, List.countP_cons]
    by_cases hb : b.id = id
    · rw [if_neg (not_not_intro hb), if_pos (by simp [hb] : (b.id == id) = true)]
      split <;> omega
    · rw [if_pos hb, if_neg (by simp [hb] : ¬((b.id == id) = true)),
        if_neg (by simp [activeDefault] :
          ¬(activeDefault { b with isDefault := false } = true))]
      omega

theorem countP_id_le_one (db : List BinanceAccount)
    (h : (db.map (fun b => b.id)).Nodup) (x : ℤ) :
    db.countP (fun b => b.id == x) ≤ 1 := by
  induction db with
  | nil => simp
  | cons b l ih =>
    rw [List.map_cons, List.nodup_cons] at h
    rw [List.countP_cons]
    by_cases hb : b.id = x
    · have hzero : l.countP (fun b => b.id == x) = 0 := by
        rw [List.countP_eq_zero]
        intro a ha
        simp only [beq_iff_eq]
        intro hax
        exact h.1 (hb ▸ hax ▸ List.mem_map_of_mem _ ha)
      simp [hzero, hb]
    · simp only [beq_iff_eq, hb, if_false]
      exact ih h.2

theorem countP_activeDefault_map_le (l : List BinanceAccount)
    (f : BinanceAccount → BinanceAccount)
    (hf : ∀ b, activeDefault (f b) = true → activeDefault b = true) :
    (l.map f).countP activeDefault ≤ l.countP activeDefault := by
  induction l with
  | nil => simp
  | cons b t ih =>
    rw [List.map_cons, List.countP_cons, List.countP_cons]
    by_cases hb : activeDefault (f b) = true
    · rw [if_pos hb, if_pos (hf b hb)]
      omega
    · rw [if_neg hb]
      split <;> omega

theorem countP_id_map_eq (l : List BinanceAccount) (f : BinanceAccount → BinanceAccount)
    (hf : ∀ b, (f b).id = b.id) (x : ℤ) :
    (l.map f).countP (fun b => b.id == x) = l.countP (fun b => b.id == x) := by
  induction l with
  | nil => simp
  | cons b t ih =>
    rw [List.map_cons, List.countP_cons, List.countP_cons, ih, hf]

theorem clearOtherDefaults_mem (db : List BinanceAccount) (id : ℤ) (b : BinanceAccount)
    (hb : b ∈ clearOtherDefaults db id) (hbid : b.id ≠ id) : b.isDefault = false := by
  unfold clearOtherDefaults at hb
  obtain ⟨b0, _, rfl⟩ := List.mem_map.mp hb
  have hid0 : b0.id ≠ id := by
    intro h0
    apply hbid
    split <;> simp [h0]
  simp [hid0]

theorem updateAccount_defaultInv (db : List BinanceAccount) (a : BinanceAccount)
    (hids : (db.map (fun b => b.id)).Nodup) (hinv : defaultInv db) :
    defaultInv (updateAccount db a) := by
  unfold updateAccount defaultInv
  by_cases hd : a.isDefault = true
  · rw [if_pos hd]
    calc (clearOtherDefaults _ a.id).countP activeDefault
        ≤ _ := countP_activeDefault_clear _ a.id
      _ = db.countP (fun b => b.id == a.id) := by
          apply countP_id_map_eq
          intro b
          split <;> rfl
      _ ≤ 1 := countP_id_le_one db hids a.id
  · rw [if_neg hd]
    refine le_trans (countP_activeDefault_map_le db _ ?_) hinv
    intro b hb
    by_cases hid : b.id = a.id
    · rw [if_pos hid] at hb
      unfold activeDefault at hb
      simp only [Bool.and_eq_true] at hb
      exact absurd hb.2 hd
    · rwa [if_neg hid] at hb

theorem saveAccount_defaultInv (db : List BinanceAccount) (account : BinanceAccount)
    (newId : ℤ) (hinv : defaultInv db) (hfresh : newId ∉ db.map (fun b => b.id)) :
    defaultInv (saveAccount db account newId) := by
  unfold saveAccount defaultInv
  by_cases hd : account.isDefault = true
  · rw [if_pos (by simpa using hd)]
    refine le_trans (countP_activeDefault_clear _ newId) ?_
    rw [List.countP_append]
    have hzero : db.countP (fun b => b.id == newId) = 0 := by
      rw [List.countP_eq_zero]
      intro a ha
      simp only [beq_iff_eq]
      intro hax
      exact hfresh (hax ▸ List.mem_map_of_mem _ ha)
    rw [hzero]
    simp
  · rw [if_neg (by simpa using hd)]
    rw [List.countP_append]
    have hins : ¬(activeDefault { account with id := newId } = true) := by
      simp only [activeDefault, Bool.and_eq_true]
      intro h
      exact hd h.2
    rw [List.countP_singleton, if_neg hins]
    simpa using hinv

/-- Claim C3: the three write paths of the account store preserve the
default-uniqueness invariant, and whenever the written row has is_default set
they clear is_default on every other row.  The insert path assumes the store
hands out a fresh id; the update and set-default paths assume the ids in the
store are pairwise distinct (both facts are supplied by the primary key). -/
theorem store_default_uniqueness (db : List BinanceAccount) (account : BinanceAccount)
    (newId : ℤ) (hinv : defaultInv db) :
    (newId ∉ db.map (fun b => b.id) → defaultInv (saveAccount db account newId))
    ∧ ((db.map (fun b => b.id)).Nodup → defaultInv (updateAccount db account))
    ∧ ((db.map (fun b => b.id)).Nodup → ∀ db',
        handleSetDefaultAccount db account.id = some db' → defaultInv db')
    ∧ (account.isDefault = true → ∀ b ∈ saveAccount db account newId,
        b.id ≠ newId → b.isDefault = false)
    ∧ (account.isDefault = true → ∀ b ∈ updateAccount db account,
        b.id ≠ account.id → b.isDefault = false) := by
  refine ⟨fun hfresh => saveAccount_defaultInv db account newId hinv hfresh,
    fun hids => updateAccount_defaultInv db account hids hinv,
    fun hids db' hdb' => ?_, fun hd b hb hbid => ?_, fun hd b hb hbid => ?_⟩
  · unfold handleSetDefaultAccount at hdb'
    rcases hacc : getAccount db account.id with _ | acc
    · rw [hacc] at hdb'
      exact absurd hdb' (by simp)
    · rw [hacc] at hdb'
      simp only [Option.some.injEq] at hdb'
      exact hdb' ▸ updateAccount_defaultInv db _ hids hinv
  · unfold saveAccount at hb
    rw [if_pos (by simpa using hd)] at hb
    exact clearOtherDefaults_mem _ newId b hb hbid
  · unfold updateAccount at hb
    rw [if_pos (by simpa using hd)] at hb
    exact clearOtherDefaults_mem _ account.id b hb hbid

/-- Concrete store rows used by witnesses and counterexamples: an active
default account with a twelve-character secret, and an inactive account with a
three-character secret. -/
def acctAlice : BinanceAccount :=
  { id := 1, name := str "alice", apiKey := str "alice-key",
    apiSecret := str "SECRETVALUE9", isTestnet := false, isActive := true,
    isDefault := true, leverage := 10, orderAmount := 100, targetPercent := 1,
    stopLossPercent := 1, orderTimeout := 600 }

def acctBob : BinanceAccount :=
  { id := 2, name := str "bob", apiKey := str "bob-key", apiSecret := str "abc",
    isTestnet := false, isActive := false, isDefault := false, leverage := 20,
    orderAmount := 50, targetPercent := 2, stopLossPercent := 2,
    orderTimeout := 300 }

/-- Witness for claim C3 at a concrete store: inserting a new default row into
a two-row store with a fresh id keeps the invariant. -/
theorem store_default_uniqueness_witness :
    defaultInv (saveAccount [acctAlice, acctBob] acctAlice 3) :=
  (store_default_uniqueness [acctAlice, acctBob] acctAlice 3
    (by unfold defaultInv; decide)).1 (by decide)

/-- The relation between a secret in a dashboard response and the stored
secret: either the response is the first four characters, a three-dot
ellipsis and the last four characters of the stored secret, or the stored
secret has at most four characters and is returned verbatim. -/
def maskedOf (response stored : Strg) : Prop :=
  response = stored.take 4 ++ str "..." ++ stored.drop (stored.length - 4)
  ∨ (stored.length ≤ 4 ∧ response = stored)

theorem maskSecret_maskedOf (s : Strg) : maskedOf (maskSecret s) s := by
  unfold maskSecret maskedOf
  split
  · exact Or.inl rfl
  · next h => exact Or.inr ⟨by omega, rfl⟩

/-- Claim C9 (amended): both account read handlers return the stored secret
through the masking step, so a response reveals at most the first four and
the last four characters of a stored secret; a secret of at most four
characters, however, is returned verbatim (see the counterexample), so the
claim that the unmasked secret is never returned fails for such rows. -/
theorem accountReads_maskSecret (db : List BinanceAccount) :
    (∀ (id : ℤ) (a : BinanceAccount), handleGetAccount db id = some a →
      ∃ b, getAccount db id = some b ∧ maskedOf a.apiSecret b.apiSecret)
    ∧ (∀ a ∈ handleGetAccounts db, ∃ b ∈ db, maskedOf a.apiSecret b.apiSecret) := by
  constructor
  · intro id a ha
    unfold handleGetAccount at ha
    rcases hb : getAccount db id with _ | b
    · rw [hb] at ha
      exact absurd ha (by simp)
    · rw [hb] at ha
      simp only [Option.map_some', Option.some.injEq] at ha
      subst ha
      exact ⟨b, rfl, maskSecret_maskedOf b.apiSecret⟩
  · intro a ha
    unfold handleGetAccounts getAllAccounts at ha
    obtain ⟨b, hbmem, rfl⟩ := List.mem_map.mp ha
    exact ⟨b, hbmem, maskSecret_maskedOf b.apiSecret⟩

/-- Witness for the amended claim C9 at a concrete store: the read of the
account with the twelve-character secret comes back masked. -/
theorem accountReads_maskSecret_witness :
    ∃ b, getAccount [acctAlice, acctBob] 1 = some b ∧
      maskedOf ({ acctAlice with apiSecret := str "SECR...LUE9" }).apiSecret b.apiSecret :=
  (accountReads_maskSecret [acctAlice, acctBob]).1 1
    { acctAlice with apiSecret := str "SECR...LUE9" } rfl

/-- Counterexample to claim C9 as stated: the stored secret abc has at most
four characters, so the handler's masking guard does not fire and the
response carries the unmasked stored secret verbatim. -/
theorem unmaskedSecret_returned :
    acctBob.apiSecret = str "abc" ∧
    (handleGetAccount [acctAlice, acctBob] 2).map (fun a => a.apiSecret) =
      some (str "abc") := by
  exact ⟨rfl, rfl⟩

theorem updateAccount_mem_default (db : List BinanceAccount) (a : BinanceAccount)
    (hd : a.isDefault = true) (b : BinanceAccount) (hb : b ∈ updateAccount db a) :
    (b.id = a.id → b.isDefault = true ∧ b.isActive = a.isActive)
    ∧ (b.id ≠ a.id → b.isDefault = false) := by
  unfold updateAccount at hb
  rw [if_pos hd] at hb
  unfold clearOtherDefaults at hb
  obtain ⟨b1, hb1, rfl⟩ := List.mem_map.mp hb
  obtain ⟨b0, _, rfl⟩ := List.mem_map.mp hb1
  by_cases hid : b0.id = a.id
  · rw [if_pos hid]
    rw [if_neg (not_not_intro (show _ = a.id from hid))]
    exact ⟨fun _ => ⟨hd, rfl⟩, fun hne => absurd hid hne⟩
  · rw [if_neg hid]
    rw [if_pos (show b0.id ≠ a.id from hid)]
    exact ⟨fun heq => absurd heq hid, fun _ => rfl⟩

/-- Claim C10: handleSetDefaultAccount succeeds on any stored account
regardless of its is_active flag.  Setting an inactive account as default
marks exactly that row default (clearing is_default everywhere else), and
GetDefaultAccount, which requires is_default together with is_active, then
returns no account. -/
theorem setDefault_inactive_account (db : List BinanceAccount) (id : ℤ)
    (acct : BinanceAccount) (hfind : getAccount db id = some acct)
    (hinactive : acct.isActive = false) :
    ∃ db', handleSetDefaultAccount db id = some db'
      ∧ (∀ b ∈ db', (b.id = id → b.isDefault = true ∧ b.isActive = false)
          ∧ (b.id ≠ id → b.isDefault = false))
      ∧ getDefaultAccount db' = none := by
  have hacctid : acct.id = id := by
    have hp := List.find?_some hfind
    simpa using hp
  have hmem : ∀ b ∈ updateAccount db { acct with isDefault := true },
      (b.id = id → b.isDefault = true ∧ b.isActive = false)
      ∧ (b.id ≠ id → b.isDefault = false) := by
    intro b hb
    have h2 := updateAccount_mem_default db { acct with isDefault := true } rfl b hb
    refine ⟨fun hbid => ?_, fun hbid => h2.2 (by simpa [hacctid] using hbid)⟩
    have h3 := h2.1 (by simpa [hacctid] using hbid)
    exact ⟨h3.1, by simpa [hinactive] using h3.2⟩
  refine ⟨updateAccount db { acct with isDefault := true }, ?_, hmem, ?_⟩
  · unfold handleSetDefaultAccount
    rw [hfind]
  · rw [getDefaultAccount, List.find?_eq_none]
    intro b hb
    have h2 := hmem b hb
    simp only [Bool.and_eq_true, not_and]
    intro hbd
    by_cases hbid : b.id = id
    · rw [(h2.1 hbid).2]
      simp
    · rw [h2.2 hbid] at hbd
      exact absurd hbd (by simp)

/-- Witness for claim C10 at a concrete store: setting the inactive second
account as default succeeds, makes it the only default, and getDefault finds
nothing. -/
theorem setDefault_inactive_account_witness :
    getAccount [acctAlice, acctBob] 2 = some acctBob ∧ acctBob.isActive = false ∧
    ∃ db', handleSetDefaultAccount [acctAlice, acctBob] 2 = some db'
      ∧ (∀ b ∈ db', (b.id = 2 → b.isDefault = true ∧ b.isActive = false)
          ∧ (b.id ≠ 2 → b.isDefault = false))
      ∧ getDefaultAccount db' = none :=
  ⟨rfl, rfl, setDefault_inactive_account [acctAlice, acctBob] 2 acctBob rfl rfl⟩

/-! ## Theorems about the order executor (claims C1, C2, C4, C6) -/

/-- The dedup gate passes: the symbol either has no recent-signal entry or its
entry is at least 48 hours old. -/
def dedupMiss (st : ExecState) (symbol : Strg) (now : ℚ) : Prop :=
  ∀ t, lookupSignal st.recentSignals symbol = some t → ¬(now - t < dedupWindowSeconds)

theorem executeSignal_gate_miss (env : ExchangeEnv) (st : ExecState) (symbol : Strg)
    (account : BinanceAccount) (now : ℚ) (hgate : dedupMiss st symbol now) :
    executeSignal env st symbol account now =
      executeSignalAfterDedup env st symbol account now := by
  unfold executeSignal
  rcases hl : lookupSignal st.recentSignals symbol with _ | t
  · rfl
  · simp only [if_neg (hgate t hl)]

theorem prepareSignal_ok (env : ExchangeEnv) (symbol : Strg) (account : BinanceAccount)
    (entry : ℚ) (symbols : List SymbolInfo) (info : SymbolInfo)
    (hticker : env.priceTicker symbol = some ⟨some (some entry)⟩)
    (hlev1 : 1 ≤ account.leverage) (hlev2 : account.leverage ≤ 125)
    (hamt : 0 < account.orderAmount) (htp : 0 < account.targetPercent)
    (hsl : 0 < account.stopLossPercent)
    (hinfo : env.exchangeInfo = some symbols)
    (hfind : findSymbolInfo symbols symbol = some info)
    (hsetlev : env.setLeverage symbol account.leverage = true)
    (hsetmt : env.setMarginType symbol (str "CROSSED") = true) :
    prepareSignal env symbol account =
      (.ok (quantityAfterFilters (account.orderAmount / entry) entry info,
            priceAfterFilters (entry * (1 + account.targetPercent / (account.leverage : ℚ))) info,
            priceAfterFilters (entry * (1 - account.stopLossPercent / (account.leverage : ℚ))) info),
       [Request.getPrice symbol, Request.getExchangeInfo,
        Request.setLeverage symbol account.leverage,
        Request.setMarginType symbol (str "CROSSED")]) := by
  unfold prepareSignal
  rw [hticker]
  simp only
  rw [if_neg (by omega), if_neg (not_le.mpr hamt), if_neg (not_le.mpr htp),
    if_neg (not_le.mpr hsl), hinfo]
  simp only
  rw [hfind]
  simp only
  rw [hsetlev, hsetmt]
  rfl

theorem dispatchOrders_requests (env : ExchangeEnv) (st : ExecState) (symbol : Strg)
    (account : BinanceAccount) (now : ℚ) (q tp sl : ℚ) (reqs : List Request) :
    ∃ extra, (dispatchOrders env st symbol account now q tp sl reqs).requests =
      reqs ++ [Request.place (mkEntryOrder symbol q), Request.place (mkTPOrder symbol q tp),
        Request.place (mkSLOrder symbol q sl)] ++ extra := by
  unfold dispatchOrders
  rcases h : env.placeOrder (mkEntryOrder symbol q) with _ | r
  · refine ⟨(match env.placeOrder (mkTPOrder symbol q tp) with
      | some r => [Request.cancel symbol r.orderID]
      | none => []) ++
      (match env.placeOrder (mkSLOrder symbol q sl) with
      | some r => [Request.cancel symbol r.orderID]
      | none => []), ?_⟩
    simp [h]
  · refine ⟨[], ?_⟩
    simp [h]

/-- Under a passing dedup gate and successful price, info and conditioning
responses, ExecuteSignal reaches the parallel dispatch with the quantity and
the filter-rounded take-profit and stop-loss prices of the source formulas. -/
theorem executeSignal_reaches_dispatch (env : ExchangeEnv) (st : ExecState) (symbol : Strg)
    (account : BinanceAccount) (now : ℚ) (entry : ℚ) (symbols : List SymbolInfo)
    (info : SymbolInfo)
    (hgate : dedupMiss st symbol now)
    (hticker : env.priceTicker symbol = some ⟨some (some entry)⟩)
    (hlev1 : 1 ≤ account.leverage) (hlev2 : account.leverage ≤ 125)
    (hamt : 0 < account.orderAmount) (htp : 0 < account.targetPercent)
    (hsl : 0 < account.stopLossPercent)
    (hinfo : env.exchangeInfo = some symbols)
    (hfind : findSymbolInfo symbols symbol = some info)
    (hsetlev : env.setLeverage symbol account.leverage = true)
    (hsetmt : env.setMarginType symbol (str "CROSSED") = true) :
    executeSignal env st symbol account now =
      dispatchOrders env st symbol account now
        (quantityAfterFilters (account.orderAmount / entry) entry info)
        (priceAfterFilters (entry * (1 + account.targetPercent / (account.leverage : ℚ))) info)
        (priceAfterFilters (entry * (1 - account.stopLossPercent / (account.leverage : ℚ))) info)
        [Request.getPrice symbol, Request.getExchangeInfo,
         Request.setLeverage symbol account.leverage,
         Request.setMarginType symbol (str "CROSSED")] := by
  rw [executeSignal_gate_miss env st symbol account now hgate]
  unfold executeSignalAfterDedup
  rw [prepareSignal_ok env symbol account entry symbols info hticker hlev1 hlev2 hamt
    htp hsl hinfo hfind hsetlev hsetmt]

/-- Claim C1: for every executed signal (dedup gate passed, price available,
account parameters valid with leverage between 1 and 125 and positive target
and stop-loss percents), the executor submits the take-profit order with stop
price equal to the filter rounding of entry times one plus target over
leverage, and the stop-loss order with stop price equal to the filter rounding
of entry times one minus stop-loss over leverage: the pre-rounding prices use
the divide-by-leverage account-return formulas of the source. -/
theorem executeSignal_bracket_prices (env : ExchangeEnv) (st : ExecState) (symbol : Strg)
    (account : BinanceAccount) (now : ℚ) (entry : ℚ) (symbols : List SymbolInfo)
    (info : SymbolInfo) (q tpP slP : ℚ)
    (hgate : dedupMiss st symbol now)
    (hticker : env.priceTicker symbol = some ⟨some (some entry)⟩)
    (hlev1 : 1 ≤ account.leverage) (hlev2 : account.leverage ≤ 125)
    (hamt : 0 < account.orderAmount) (htp : 0 < account.targetPercent)
    (hsl : 0 < account.stopLossPercent)
    (hinfo : env.exchangeInfo = some symbols)
    (hfind : findSymbolInfo symbols symbol = some info)
    (hsetlev : env.setLeverage symbol account.leverage = true)
    (hsetmt : env.setMarginType symbol (str "CROSSED") = true)
    (hq : q = quantityAfterFilters (account.orderAmount / entry) entry info)
    (htpP : tpP = priceAfterFilters
      (entry * (1 + account.targetPercent / (account.leverage : ℚ))) info)
    (hslP : slP = priceAfterFilters
      (entry * (1 - account.stopLossPercent / (account.leverage : ℚ))) info) :
    Request.place (mkTPOrder symbol q tpP) ∈ (executeSignal env st symbol account now).requests
    ∧ Request.place (mkSLOrder symbol q slP) ∈
        (executeSignal env st symbol account now).requests := by
  subst hq htpP hslP
  rw [executeSignal_reaches_dispatch env st symbol account now entry symbols info hgate
    hticker hlev1 hlev2 hamt htp hsl hinfo hfind hsetlev hsetmt]
  obtain ⟨extra, hreq⟩ := dispatchOrders_requests env st symbol account now _ _ _ _
  rw [hreq]
  constructor <;> simp

/-- Claim C2: when the entry market buy is rejected, ExecuteSignal cancels
every protective order the exchange accepted, returns an error, and leaves the
in-memory state (in particular the recent-signal dedup map) unchanged, so a
later signal for the same symbol passes the dedup gate again. -/
theorem executeSignal_entry_failed (env : ExchangeEnv) (st : ExecState) (symbol : Strg)
    (account : BinanceAccount) (now : ℚ) (entry : ℚ) (symbols : List SymbolInfo)
    (info : SymbolInfo) (q tpP slP : ℚ)
    (hgate : dedupMiss st symbol now)
    (hticker : env.priceTicker symbol = some ⟨some (some entry)⟩)
    (hlev1 : 1 ≤ account.leverage) (hlev2 : account.leverage ≤ 125)
    (hamt : 0 < account.orderAmount) (htp : 0 < account.targetPercent)
    (hsl : 0 < account.stopLossPercent)
    (hinfo : env.exchangeInfo = some symbols)
    (hfind : findSymbolInfo symbols symbol = some info)
    (hsetlev : env.setLeverage symbol account.leverage = true)
    (hsetmt : env.setMarginType symbol (str "CROSSED") = true)
    (hq : q = quantityAfterFilters (account.orderAmount / entry) entry info)
    (htpP : tpP = priceAfterFilters
      (entry * (1 + account.targetPercent / (account.leverage : ℚ))) info)
    (hslP : slP = priceAfterFilters
      (entry * (1 - account.stopLossPercent / (account.leverage : ℚ))) info)
    (hentry : env.placeOrder (mkEntryOrder symbol q) = none) :
    (executeSignal env st symbol account now).result = .error errExecutionFailed
    ∧ (executeSignal env st symbol account now).finalState = st
    ∧ (∀ r, env.placeOrder (mkTPOrder symbol q tpP) = some r →
        Request.cancel symbol r.orderID ∈ (executeSignal env st symbol account now).requests)
    ∧ (∀ r, env.placeOrder (mkSLOrder symbol q slP) = some r →
        Request.cancel symbol r.orderID ∈ (executeSignal env st symbol account now).requests) := by
  subst hq htpP hslP
  rw [executeSignal_reaches_dispatch env st symbol account now entry symbols info hgate
    hticker hlev1 hlev2 hamt htp hsl hinfo hfind hsetlev hsetmt]
  unfold dispatchOrders
  refine ⟨?_, ?_, fun r hr => ?_, fun r hr => ?_⟩
  · simp [hentry]
  · simp [hentry]
  · simp [hentry, hr]
  · simp [hentry, hr]

/-- Concrete data for the executor witnesses: the happy-path scenario of the
specification (symbol BTCUSDT, price 50000, leverage 10, order amount 100,
target 0.02, stop-loss 0.01, lot step 0.001, tick 0.10, min notional 5). -/
def wBTC : Strg := str "BTCUSDT"

def traderAcct : BinanceAccount :=
  { id := 1, name := str "trader", apiKey := str "k", apiSecret := str "s",
    isTestnet := false, isActive := true, isDefault := true, leverage := 10,
    orderAmount := 100, targetPercent := 1/50, stopLossPercent := 1/100,
    orderTimeout := 600 }

def wLotFilter : FilterInfo :=
  { filterType := str "LOT_SIZE", stepSize := some (some (1/1000)),
    minQty := some (some (1/1000)), maxQty := some (some 1000) }

def wPriceFilter : FilterInfo :=
  { filterType := str "PRICE_FILTER", tickSize := some (some (1/10)),
    minPrice := some (some 1), maxPrice := some (some 1000000) }

def wNotionalFilter : FilterInfo :=
  { filterType := str "MIN_NOTIONAL", minNotional := some (some 5) }

def wInfo : SymbolInfo :=
  { symbol := wBTC, pricePrecision := 2, quantityPrecision := 3,
    filters := [wLotFilter, wPriceFilter, wNotionalFilter] }

def happyEnv : ExchangeEnv :=
  { priceTicker := fun _ => some ⟨some (some 50000)⟩,
    exchangeInfo := some [wInfo],
    setLeverage := fun _ _ => true,
    setMarginType := fun _ _ => true,
    placeOrder := fun o =>
      some ⟨if o.orderType == str "MARKET" then 101
        else if o.orderType == str "TAKE_PROFIT_MARKET" then 102 else 103, str "NEW"⟩ }

/-- The same exchange with the market entry order rejected. -/
def entryFailEnv : ExchangeEnv :=
  { happyEnv with
    placeOrder := fun o =>
      if o.orderType == str "MARKET" then none
      else some ⟨if o.orderType == str "TAKE_PROFIT_MARKET" then 102 else 103, str "NEW"⟩ }

theorem emptyState_dedupMiss (symbol : Strg) (now : ℚ) :
    dedupMiss ⟨[], []⟩ symbol now := by
  intro t ht
  simp [lookupSignal] at ht

/-- Witness for claim C1 on the happy-path scenario. -/
theorem executeSignal_bracket_prices_witness :
    Request.place (mkTPOrder wBTC
        (quantityAfterFilters (traderAcct.orderAmount / 50000) 50000 wInfo)
        (priceAfterFilters (50000 * (1 + traderAcct.targetPercent / (traderAcct.leverage : ℚ))) wInfo))
      ∈ (executeSignal happyEnv ⟨[], []⟩ wBTC traderAcct 0).requests
    ∧ Request.place (mkSLOrder wBTC
        (quantityAfterFilters (traderAcct.orderAmount / 50000) 50000 wInfo)
        (priceAfterFilters (50000 * (1 - traderAcct.stopLossPercent / (traderAcct.leverage : ℚ))) wInfo))
      ∈ (executeSignal happyEnv ⟨[], []⟩ wBTC traderAcct 0).requests :=
  executeSignal_bracket_prices happyEnv ⟨[], []⟩ wBTC traderAcct 0 50000 [wInfo] wInfo
    _ _ _ (emptyState_dedupMiss wBTC 0) rfl (by decide) (by decide)
    (by norm_num [traderAcct]) (by norm_num [traderAcct]) (by norm_num [traderAcct])
    rfl rfl rfl rfl rfl rfl rfl

/-- Witness for claim C2 on the happy-path scenario with the entry rejected. -/
theorem executeSignal_entry_failed_witness :
    (executeSignal entryFailEnv ⟨[], []⟩ wBTC traderAcct 0).result = .error errExecutionFailed
    ∧ (executeSignal entryFailEnv ⟨[], []⟩ wBTC traderAcct 0).finalState = (⟨[], []⟩ : ExecState)
    ∧ (∀ r, entryFailEnv.placeOrder (mkTPOrder wBTC
          (quantityAfterFilters (traderAcct.orderAmount / 50000) 50000 wInfo)
          (priceAfterFilters (50000 * (1 + traderAcct.targetPercent / (traderAcct.leverage : ℚ))) wInfo)) = some r →
        Request.cancel wBTC r.orderID ∈ (executeSignal entryFailEnv ⟨[], []⟩ wBTC traderAcct 0).requests)
    ∧ (∀ r, entryFailEnv.placeOrder (mkSLOrder wBTC
          (quantityAfterFilters (traderAcct.orderAmount / 50000) 50000 wInfo)
          (priceAfterFilters (50000 * (1 - traderAcct.stopLossPercent / (traderAcct.leverage : ℚ))) wInfo)) = some r →
        Request.cancel wBTC r.orderID ∈ (executeSignal entryFailEnv ⟨[], []⟩ wBTC traderAcct 0).requests) :=
  executeSignal_entry_failed entryFailEnv ⟨[], []⟩ wBTC traderAcct 0 50000 [wInfo] wInfo
    _ _ _ (emptyState_dedupMiss wBTC 0) rfl (by decide) (by decide)
    (by norm_num [traderAcct]) (by norm_num [traderAcct]) (by norm_num [traderAcct])
    rfl rfl rfl rfl rfl rfl rfl rfl

theorem executeSignal_gate_hit (env : ExchangeEnv) (st : ExecState) (symbol : Strg)
    (account : BinanceAccount) (now t : ℚ)
    (hl : lookupSignal st.recentSignals symbol = some t)
    (ht : now - t < dedupWindowSeconds) :
    executeSignal env st symbol account now = ⟨.ok (), [], st⟩ := by
  unfold executeSignal
  simp only [hl, if_pos ht]

theorem afterDedup_ok_records (env : ExchangeEnv) (st : ExecState) (symbol : Strg)
    (account : BinanceAccount) (now : ℚ)
    (hok : (executeSignalAfterDedup env st symbol account now).result = .ok ()) :
    (executeSignalAfterDedup env st symbol account now).finalState.recentSignals =
      (symbol, now) :: st.recentSignals := by
  rcases hp : prepareSignal env symbol account with ⟨res, reqs⟩
  cases res with
  | error msg =>
    have heq : executeSignalAfterDedup env st symbol account now =
        ⟨.error msg, reqs, st⟩ := by
      unfold executeSignalAfterDedup
      rw [hp]
    rw [heq] at hok
    simp at hok
  | ok v =>
    rcases v with ⟨q, tp, sl⟩
    have heq : executeSignalAfterDedup env st symbol account now =
        dispatchOrders env st symbol account now q tp sl reqs := by
      unfold executeSignalAfterDedup
      rw [hp]
    rw [heq] at hok ⊢
    rcases he : env.placeOrder (mkEntryOrder symbol q) with _ | r
    · have heq2 : (dispatchOrders env st symbol account now q tp sl reqs).result =
          .error errExecutionFailed := by
        unfold dispatchOrders
        simp only [he]
      rw [heq2] at hok
      simp at hok
    · unfold dispatchOrders
      simp only [he]

theorem executeSignal_ok_records (env : ExchangeEnv) (st : ExecState) (symbol : Strg)
    (account : BinanceAccount) (now : ℚ)
    (hok : (executeSignal env st symbol account now).result = .ok ())
    (hreq : (executeSignal env st symbol account now).requests ≠ []) :
    (executeSignal env st symbol account now).finalState.recentSignals =
      (symbol, now) :: st.recentSignals := by
  unfold executeSignal at hok hreq ⊢
  rcases hl : lookupSignal st.recentSignals symbol with _ | t
  · simp only [hl] at hok hreq ⊢
    exact afterDedup_ok_records env st symbol account now hok
  · simp only [hl] at hok hreq ⊢
    by_cases ht : now - t < dedupWindowSeconds
    · rw [if_pos ht] at hreq
      exact absurd rfl hreq
    · rw [if_neg ht] at hok ⊢
      exact afterDedup_ok_records env st symbol account now hok

/-- Claim C4 (amended): the dedup gate of ExecuteSignal works as stated -- a
symbol whose recent-signal entry is younger than 48 hours is skipped with a
nil return, no exchange request and an unchanged state -- and a SUCCESSFUL
dispatched execution arms the gate, so every later call for the same symbol
within 48 hours is skipped.  The stronger statement of the claim, that at
most one signal per symbol reaches parallel dispatch in any 48-hour window,
fails, because a failed dispatch (for example a rejected entry) does not
record the dedup entry: see the counterexample. -/
theorem dedup_gate (env env2 : ExchangeEnv) (st : ExecState) (symbol : Strg)
    (account account2 : BinanceAccount) (now now2 : ℚ) :
    (∀ t, lookupSignal st.recentSignals symbol = some t →
      now - t < dedupWindowSeconds →
      executeSignal env st symbol account now = ⟨.ok (), [], st⟩)
    ∧ ((executeSignal env st symbol account now).result = .ok () →
       (executeSignal env st symbol account now).requests ≠ [] →
       now2 - now < dedupWindowSeconds →
       executeSignal env2 (executeSignal env st symbol account now).finalState symbol
         account2 now2 =
         ⟨.ok (), [], (executeSignal env st symbol account now).finalState⟩) := by
  constructor
  · intro t hl ht
    exact executeSignal_gate_hit env st symbol account now t hl ht
  · intro hok hreq hwin
    have hr := executeSignal_ok_records env st symbol account now hok hreq
    refine executeSignal_gate_hit env2 _ symbol account2 now2 now ?_ hwin
    rw [hr]
    simp [lookupSignal]

/-- Witness for the amended claim C4: with the symbol recorded at instant 0,
a call one second later is skipped with no request and unchanged state. -/
theorem dedup_gate_witness :
    executeSignal happyEnv ⟨[(wBTC, 0)], []⟩ wBTC traderAcct 1 =
      ⟨.ok (), [], ⟨[(wBTC, 0)], []⟩⟩ :=
  (dedup_gate happyEnv happyEnv ⟨[(wBTC, 0)], []⟩ wBTC traderAcct traderAcct 1 0).1
    0 rfl (by norm_num [dedupWindowSeconds])

theorem dispatchOrders_entry_failed_state (env : ExchangeEnv) (st : ExecState)
    (symbol : Strg) (account : BinanceAccount) (now : ℚ) (q tp sl : ℚ)
    (reqs : List Request) (hentry : env.placeOrder (mkEntryOrder symbol q) = none) :
    (dispatchOrders env st symbol account now q tp sl reqs).finalState = st := by
  unfold dispatchOrders
  simp only [hentry]

/-- Counterexample to claim C4 as stated: two signals for the same symbol,
one second apart, both reach parallel dispatch (both issue the entry market
buy), because the first execution's entry was rejected and the executor does
not record the dedup entry on failure. -/
theorem dedup_gate_counterexample :
    (1 : ℚ) - 0 < dedupWindowSeconds
    ∧ Request.place (mkEntryOrder wBTC
        (quantityAfterFilters (traderAcct.orderAmount / 50000) 50000 wInfo))
      ∈ (executeSignal entryFailEnv ⟨[], []⟩ wBTC traderAcct 0).requests
    ∧ Request.place (mkEntryOrder wBTC
        (quantityAfterFilters (traderAcct.orderAmount / 50000) 50000 wInfo))
      ∈ (executeSignal happyEnv
          (executeSignal entryFailEnv ⟨[], []⟩ wBTC traderAcct 0).finalState
          wBTC traderAcct 1).requests := by
  have hd1 := executeSignal_reaches_dispatch entryFailEnv ⟨[], []⟩ wBTC traderAcct 0
    50000 [wInfo] wInfo (emptyState_dedupMiss wBTC 0) rfl (by decide) (by decide)
    (by norm_num [traderAcct]) (by norm_num [traderAcct]) (by norm_num [traderAcct])
    rfl rfl rfl rfl
  have hstate : (executeSignal entryFailEnv ⟨[], []⟩ wBTC traderAcct 0).finalState =
      (⟨[], []⟩ : ExecState) := by
    rw [hd1]
    exact dispatchOrders_entry_failed_state _ _ _ _ _ _ _ _ _ rfl
  have hd2 := executeSignal_reaches_dispatch happyEnv ⟨[], []⟩ wBTC traderAcct 1
    50000 [wInfo] wInfo (emptyState_dedupMiss wBTC 1) rfl (by decide) (by decide)
    (by norm_num [traderAcct]) (by norm_num [traderAcct]) (by norm_num [traderAcct])
    rfl rfl rfl rfl
  refine ⟨by norm_num [dedupWindowSeconds], ?_, ?_⟩
  · rw [hd1]
    obtain ⟨extra, hreq⟩ := dispatchOrders_requests entryFailEnv ⟨[], []⟩ wBTC traderAcct 0
      _ _ _ _
    rw [hreq]
    simp
  · rw [hstate, hd2]
    obtain ⟨extra, hreq⟩ := dispatchOrders_requests happyEnv ⟨[], []⟩ wBTC traderAcct 1
      _ _ _ _
    rw [hreq]
    simp

theorem roundToStepSize_half_step_bound (v step : ℚ) (mnF mxF : StrNum)
    (hstep : 0 < step) (hmax : parseOrZero mxF = 0) :
    v - step / 2 ≤ roundToStepSize v (some (some step)) mnF mxF := by
  have hbase : v - step / 2 ≤ ((⌊v / step + 1/2⌋ : ℤ) : ℚ) * step := by
    have hfl : v / step + 1/2 - 1 < ((⌊v / step + 1/2⌋ : ℤ) : ℚ) := Int.sub_one_lt_floor _
    have hmul : (v / step + 1/2 - 1) * step < ((⌊v / step + 1/2⌋ : ℤ) : ℚ) * step :=
      mul_lt_mul_of_pos_right hfl hstep
    have hid : (v / step + 1/2 - 1) * step = v - step / 2 := by
      field_simp
      ring
    linarith
  unfold roundToStepSize
  simp only [if_neg hstep.ne', hmax, lt_self_iff_false, false_and, if_false]
  split
  · next h => linarith [h.2]
  · exact hbase

/-- Claim C6 (amended): with a positive lot step, a parsable min-notional
bound, a positive entry price and no effective max-quantity cap, the quantity
the executor submits satisfies quantity times entry at least minNotional minus
entry times step over two: the min-notional bump sets the quantity to
minNotional over entry and the re-rounding to the lot step can move it down by
at most half a step, so the exact floor of the claim can be violated by up to
half a lot step (see the counterexample), but by no more. -/
theorem quantityAfterFilters_notional_bound (rawQty entry step minN : ℚ)
    (info : SymbolInfo) (lf nf : FilterInfo)
    (hlot : (selectFilters info.filters).lotFilter = some lf)
    (hstep : lf.stepSize = some (some step)) (hsteppos : 0 < step)
    (hmax : parseOrZero lf.maxQty = 0)
    (hnf : (selectFilters info.filters).minNotionalFilter = some nf)
    (hminN : nf.minNotional = some (some minN))
    (hentry : 0 < entry) :
    minN - entry * step / 2 ≤ quantityAfterFilters rawQty entry info * entry := by
  unfold quantityAfterFilters
  simp only [hlot, hstep, hnf, hminN, Option.isSome_some, if_true]
  split
  · next hlt =>
    have hb := roundToStepSize_half_step_bound (minN / entry) step lf.minQty lf.maxQty
      hsteppos hmax
    have hmul := mul_le_mul_of_nonneg_right hb (le_of_lt hentry)
    have hid : (minN / entry - step / 2) * entry = minN - entry * step / 2 := by
      field_simp
      ring
    linarith [hid ▸ hmul]
  · next hge =>
    push_neg at hge
    nlinarith [mul_pos hentry hsteppos]

/-- Concrete data for claim C6: entry price 1, order amount 1, lot step 4,
min notional 5, no max-quantity cap. -/
def c6sym : Strg := str "AAAUSDT"

def c6lot : FilterInfo := { filterType := str "LOT_SIZE", stepSize := some (some 4) }

def c6not : FilterInfo := { filterType := str "MIN_NOTIONAL", minNotional := some (some 5) }

def c6info : SymbolInfo :=
  { symbol := c6sym, pricePrecision := 0, quantityPrecision := 0, filters := [c6lot, c6not] }

def c6acct : BinanceAccount := { traderAcct with orderAmount := 1 }

def c6env : ExchangeEnv :=
  { priceTicker := fun _ => some ⟨some (some 1)⟩,
    exchangeInfo := some [c6info],
    setLeverage := fun _ _ => true,
    setMarginType := fun _ _ => true,
    placeOrder := fun _ => some ⟨7, str "NEW"⟩ }

/-- Witness for the amended claim C6 at the concrete filter set. -/
theorem quantityAfterFilters_notional_bound_witness :
    (0 : ℚ) < 4 ∧ (0 : ℚ) < 1 ∧
    (5 : ℚ) - 1 * 4 / 2 ≤ quantityAfterFilters 1 1 c6info * 1 :=
  ⟨by norm_num, by norm_num,
   quantityAfterFilters_notional_bound 1 1 4 5 c6info c6lot c6not rfl rfl (by norm_num)
     rfl rfl rfl (by norm_num)⟩

/-- Counterexample to claim C6 as stated: with entry price 1, lot step 4 and
min notional 5, the bumped quantity 5 re-rounds down to 4, and the executor
submits the entry order with notional 4 times 1, strictly below the
min-notional bound 5 recorded in the symbol's filter. -/
theorem notional_floor_counterexample :
    c6not.minNotional = some (some 5)
    ∧ Request.place (mkEntryOrder c6sym (quantityAfterFilters (c6acct.orderAmount / 1) 1 c6info))
        ∈ (executeSignal c6env ⟨[], []⟩ c6sym c6acct 0).requests
    ∧ quantityAfterFilters (c6acct.orderAmount / 1) 1 c6info * 1 < 5 := by
  have hsel : selectFilters c6info.filters =
      { lotFilter := some c6lot, priceFilter := none, minNotionalFilter := some c6not } := rfl
  have h1 : roundToStepSize ((1 : ℚ) / 1) (some (some 4)) none none = 0 := by
    simp [roundToStepSize, parseOrZero]
    norm_num
  have h2 : roundToStepSize ((5 : ℚ) / 1) (some (some 4)) none none = 4 := by
    simp [roundToStepSize, parseOrZero]
    norm_num
  have hq : quantityAfterFilters (c6acct.orderAmount / 1) 1 c6info = 4 := by
    show quantityAfterFilters ((1 : ℚ) / 1) 1 c6info = 4
    unfold quantityAfterFilters
    simp only [hsel, c6lot, c6not, Option.isSome_some, if_true, h1, h2]
    norm_num
  refine ⟨rfl, ?_, ?_⟩
  · have hd := executeSignal_reaches_dispatch c6env ⟨[], []⟩ c6sym c6acct 0 1 [c6info]
      c6info (emptyState_dedupMiss c6sym 0) rfl (by decide) (by decide)
      (by norm_num [c6acct, traderAcct]) (by norm_num [c6acct, traderAcct])
      (by norm_num [c6acct, traderAcct]) rfl rfl rfl rfl
    rw [hd]
    obtain ⟨extra, hreq⟩ := dispatchOrders_requests c6env ⟨[], []⟩ c6sym c6acct 0 _ _ _ _
    rw [hreq]
    simp
  · rw [hq]
    norm_num

/-! ## Theorems about the timeout sweeper (claim C5) -/

theorem countCloses_cons_cancel (symbol s : Strg) (b : Bool) (oid : ℤ) (ok : Bool)
    (evs : List SweepEvent) :
    countCloses symbol b (SweepEvent.cancel s oid ok :: evs) = countCloses symbol b evs := by
  simp [countCloses, List.countP_cons]

theorem countCloses_cons_close (symbol s : Strg) (b : Bool) (q : ℚ) (ok : Bool)
    (evs : List SweepEvent) :
    countCloses symbol b (SweepEvent.close s q ok :: evs) =
      countCloses symbol b evs + (if (s == symbol && (!b || ok)) = true then 1 else 0) := by
  simp [countCloses, List.countP_cons]

theorem countCloses_append (symbol : Strg) (b : Bool) (evs1 evs2 : List SweepEvent) :
    countCloses symbol b (evs1 ++ evs2) =
      countCloses symbol b evs1 + countCloses symbol b evs2 := by
  simp [countCloses, List.countP_append]

theorem countCloses_true_le_false (symbol : Strg) (evs : List SweepEvent) :
    countCloses symbol true evs ≤ countCloses symbol false evs := by
  unfold countCloses
  apply List.countP_mono_left
  intro e _
  cases e with
  | cancel s oid ok => simp
  | close s q ok =>
    simp only [Bool.and_eq_true]
    intro h
    simp [h.1]

theorem sweepList_close_invariants (env : SweepEnv) (now : ℚ) (symbol : Strg)
    (pending : List (ℤ × OrderTimeout)) :
    ∀ closed : List Strg,
      (symbol ∈ closed → symbol ∈ (sweepList env now pending closed).2.1 ∧
        countCloses symbol false (sweepList env now pending closed).2.2 = 0)
      ∧ countCloses symbol true (sweepList env now pending closed).2.2 ≤ 1
      ∧ (1 ≤ countCloses symbol true (sweepList env now pending closed).2.2 →
          symbol ∈ (sweepList env now pending closed).2.1) := by
  induction pending with
  | nil =>
    intro closed
    simp [sweepList, countCloses]
  | cons e rest ih =>
    intro closed
    rw [sweepList]
    split
    · next htimeout =>
      split
      · next hmem =>
        have h := ih closed
        refine ⟨fun hs => ?_, ?_, fun hc => ?_⟩
        · rw [countCloses_cons_cancel]
          exact h.1 hs
        · rw [countCloses_cons_cancel]
          exact h.2.1
        · rw [countCloses_cons_cancel] at hc
          exact h.2.2 hc
      · next hnotmem =>
        cases hokv : env.closeOk e.2.symbol e.2.quantity with
        | true =>
          simp only [hokv, if_true]
          have h := ih (closed ++ [e.2.symbol])
          by_cases hsym : e.2.symbol = symbol
          · have hmem1 : symbol ∈ closed ++ [e.2.symbol] := by
              simp [hsym]
            have hzero : countCloses symbol false
                (sweepList env now rest (closed ++ [e.2.symbol])).2.2 = 0 :=
              (h.1 hmem1).2
            have hztrue : countCloses symbol true
                (sweepList env now rest (closed ++ [e.2.symbol])).2.2 = 0 :=
              Nat.le_zero.mp (hzero ▸ countCloses_true_le_false symbol _)
            refine ⟨fun hs => absurd (hsym ▸ hs) hnotmem, ?_, fun _ => (h.1 hmem1).1⟩
            rw [countCloses_cons_cancel, countCloses_cons_close, hztrue]
            split <;> omega
          · have hpred : ∀ b : Bool, (e.2.symbol == symbol && (!b || true)) = false := by
              intro b
              simp [hsym]
            refine ⟨fun hs => ?_, ?_, fun hc => ?_⟩
            · have hs1 : symbol ∈ closed ++ [e.2.symbol] := List.mem_append.mpr (Or.inl hs)
              rw [countCloses_cons_cancel, countCloses_cons_close, hpred]
              exact ⟨(h.1 hs1).1, by simpa using (h.1 hs1).2⟩
            · rw [countCloses_cons_cancel, countCloses_cons_close, hpred]
              simpa using h.2.1
            · rw [countCloses_cons_cancel, countCloses_cons_close, hpred] at hc
              simp only [Bool.false_eq_true, if_false, Nat.add_zero] at hc
              exact h.2.2 hc
        | false =>
          simp only [hokv, Bool.false_eq_true, if_false]
          have h := ih closed
          have hpred : ∀ b : Bool, symbol ∈ closed ∨ e.2.symbol ≠ symbol →
              (e.2.symbol == symbol && (!b || false)) = false := by
            intro b hx
            rcases hx with hx | hx
            · have : e.2.symbol ≠ symbol := fun he => hnotmem (he ▸ hx)
              simp [this]
            · simp [hx]
          refine ⟨fun hs => ?_, ?_, fun hc => ?_⟩
          · rw [countCloses_cons_cancel, countCloses_cons_close, hpred false (Or.inl hs)]
            exact ⟨(h.1 hs).1, by simpa using (h.1 hs).2⟩
          · rw [countCloses_cons_cancel, countCloses_cons_close]
            have : (e.2.symbol == symbol && (!true || false)) = false := by
              simp
            rw [this]
            simpa using h.2.1
          · rw [countCloses_cons_cancel, countCloses_cons_close] at hc
            have : (e.2.symbol == symbol && (!true || false)) = false := by
              simp
            rw [this] at hc
            simp only [Bool.false_eq_true, if_false, Nat.add_zero] at hc
            exact h.2.2 hc
    · next hnotimeout =>
      have h := ih closed
      exact ⟨fun hs => ⟨(h.1 hs).1, (h.1 hs).2⟩, h.2.1, h.2.2⟩

theorem sweepOnce_close_invariants (env : SweepEnv) (now : ℚ) (st : SweepState)
    (symbol : Strg) :
    (symbol ∈ st.closedPositions → symbol ∈ (sweepOnce env now st).1.closedPositions ∧
      countCloses symbol false (sweepOnce env now st).2 = 0)
    ∧ countCloses symbol true (sweepOnce env now st).2 ≤ 1
    ∧ (1 ≤ countCloses symbol true (sweepOnce env now st).2 →
        symbol ∈ (sweepOnce env now st).1.closedPositions) :=
  sweepList_close_invariants env now symbol st.pendingOrders st.closedPositions

theorem runSweeps_close_invariants (ticks : List (SweepEnv × ℚ)) (st : SweepState)
    (symbol : Strg) :
    (symbol ∈ st.closedPositions → symbol ∈ (runSweeps ticks st).1.closedPositions ∧
      countCloses symbol false (runSweeps ticks st).2 = 0)
    ∧ countCloses symbol true (runSweeps ticks st).2 ≤ 1
    ∧ (1 ≤ countCloses symbol true (runSweeps ticks st).2 →
        symbol ∈ (runSweeps ticks st).1.closedPositions) := by
  induction ticks generalizing st with
  | nil => simp [runSweeps, countCloses]
  | cons tick rest ih =>
    rw [runSweeps]
    have h1 := sweepOnce_close_invariants tick.1 tick.2 st symbol
    have h2 := ih (sweepOnce tick.1 tick.2 st).1
    simp only [countCloses_append]
    refine ⟨fun hs => ?_, ?_, fun hc => ?_⟩
    · have ha := h1.1 hs
      have hb := h2.1 ha.1
      exact ⟨hb.1, by omega⟩
    · by_cases hfirst : 1 ≤ countCloses symbol true (sweepOnce tick.1 tick.2 st).2
      · have hmem := h1.2.2 hfirst
        have hzf := (h2.1 hmem).2
        have hzt : countCloses symbol true (runSweeps rest (sweepOnce tick.1 tick.2 st).1).2 = 0 :=
          Nat.le_zero.mp (hzf ▸ countCloses_true_le_false symbol _)
        have := h1.2.1
        omega
      · have := h2.2.1
        omega
    · by_cases hsecond : 1 ≤ countCloses symbol true (runSweeps rest (sweepOnce tick.1 tick.2 st).1).2
      · exact h2.2.2 hsecond
      · have hfirst : 1 ≤ countCloses symbol true (sweepOnce tick.1 tick.2 st).2 := by omega
        have hmem := h1.2.2 hfirst
        exact (h2.1 hmem).1

/-- Claim C5 (amended): across any process lifetime of the timeout sweeper,
at most one timeout-induced reduce-only market-sell force close per symbol is
ACCEPTED by the exchange (the closedPositions guard is set only on success),
and once a symbol is marked closed no further force close for it is ever
submitted -- in particular when both the TP and the SL order of a position
time out and the first close succeeds, the second submits nothing.  The
unconditional bound of the claim on submissions fails when an earlier close
attempt is rejected by the exchange: the sweeper then retries, see the
counterexample. -/
theorem sweeper_close_exclusivity (ticks : List (SweepEnv × ℚ)) (st : SweepState)
    (symbol : Strg) :
    countCloses symbol true (runSweeps ticks st).2 ≤ 1
    ∧ (symbol ∈ st.closedPositions →
        countCloses symbol false (runSweeps ticks st).2 = 0) :=
  ⟨(runSweeps_close_invariants ticks st symbol).2.1,
   fun hs => ((runSweeps_close_invariants ticks st symbol).1 hs).2⟩

/-- The concrete sweep scenario: a TP order and an SL order for the same
symbol, both created at instant 0 with a 600-second timeout. -/
def c5ot1 : OrderTimeout :=
  { orderID := 1, symbol := str "BTCUSDT", orderType := str "take_profit",
    quantity := 1, createdAt := 0, timeoutDuration := 600 }

def c5ot2 : OrderTimeout :=
  { c5ot1 with orderID := 2, orderType := str "stop_loss" }

/-- An exchange that rejects every close order during the sweep. -/
def c5envFail : SweepEnv := { cancelOk := fun _ => true, closeOk := fun _ _ => false }

/-- An exchange that accepts every request during the sweep. -/
def c5envOk : SweepEnv := { cancelOk := fun _ => true, closeOk := fun _ _ => true }

/-- Witness for the amended claim C5: on a sweep at instant 601 where both
protective orders have timed out and the exchange accepts the close, at most
one close succeeds; and with the symbol already marked closed, no close at
all is submitted. -/
theorem sweeper_close_exclusivity_witness :
    countCloses (str "BTCUSDT") true
      (runSweeps [(c5envOk, 601)] ⟨[(1, c5ot1), (2, c5ot2)], []⟩).2 ≤ 1
    ∧ (str "BTCUSDT" ∈ [str "BTCUSDT"] ∧
       countCloses (str "BTCUSDT") false
         (runSweeps [(c5envOk, 601)] ⟨[(1, c5ot1), (2, c5ot2)], [str "BTCUSDT"]⟩).2 = 0) :=
  ⟨(sweeper_close_exclusivity [(c5envOk, 601)] ⟨[(1, c5ot1), (2, c5ot2)], []⟩
      (str "BTCUSDT")).1,
   by decide,
   (sweeper_close_exclusivity [(c5envOk, 601)] ⟨[(1, c5ot1), (2, c5ot2)], [str "BTCUSDT"]⟩
      (str "BTCUSDT")).2 (by decide)⟩

/-- Counterexample to claim C5 as stated: both the TP and the SL order of the
same position time out in the same sweep; the close submitted for the first
is rejected by the exchange, so the symbol is not marked closed and the
sweeper submits a second force close when it reaches the second order -- two
timeout-induced force-close submissions for one symbol in one process
lifetime. -/
theorem close_exclusivity_counterexample :
    c5ot1.timeoutDuration < (601 : ℚ) - c5ot1.createdAt
    ∧ c5ot2.timeoutDuration < (601 : ℚ) - c5ot2.createdAt
    ∧ countCloses (str "BTCUSDT") false
        (runSweeps [(c5envFail, 601)] ⟨[(1, c5ot1), (2, c5ot2)], []⟩).2 = 2 := by
  refine ⟨by norm_num [c5ot1], by norm_num [c5ot1, c5ot2], ?_⟩
  norm_num [runSweeps, sweepOnce, sweepList, c5ot1, c5ot2, c5envFail, countCloses,
    List.countP_cons]
